import Mathlib

set_option autoImplicit false

/-
  Verification development for the dbfs filesystem-backed document database.

  The definitions below are a shallow embedding of the JavaScript sources:
    - src/utils/ValueNormalizer.js            (ValueNormalizer.normalize)
    - src/storage/DocumentStorage.js          (count-based sub-shard policy)
    - src/storage/DocumentStorageMessagePack.js (hash-based sub-shard policy)
    - src/core/SchemaParser.js                (parseSchema / validateDocument / getIndexedFields)
    - src/core/UnifiedCollection.js           (insert / getById / update / _updateAllIndices)
    - src/indexing/ShardedIndexManager.js     (composite keys, add, getExact, getPrefix)
    - src/indexing/RegularIndexManager.js     (buildIndex)
    - src/engines/MultiFieldQueryEngine.js    (the planner version driven by schema.indices:
                                               _planAndQuery, _evaluateCompositeMatch,
                                               _evaluateIntersectMatch, _planOrQuery,
                                               _matchesCondition, _getNestedValue)

  Conventions of the embedding:
    - JavaScript values are modelled by `JsVal`; `undefined` is `Option.none` at
      use sites, `null` is the constructor `vNull`.  JS numbers are restricted
      to integers (the claims under verification are about comparison plumbing,
      not float formatting); estimated selectivities are carried exactly in ℚ.
    - A JS `Date` is carried by its toISOString rendering.
    - md5-based hash routing is abstracted by an arbitrary function
      `String → Nat` held in the corresponding structure; every claim under
      verification is independent of the concrete hash.
    - The filesystem is a map from rendered paths to stored documents;
      serialization (JSON / msgpack round-trips) is abstracted as the identity.
    - JS `Array.prototype.sort` is a stable sort with a consistent comparator
      here, modelled by stable insertion sort on the same key.
-/

namespace DBFS

/-- String.prototype.toLowerCase, modelled character-wise (ASCII, matching
Char.toLower); defined over the character list so that it computes by `decide`. -/
def jsToLowerCase (s : String) : String := String.mk (s.data.map Char.toLower)

/-- JS whitespace test used by String.prototype.trim (common whitespace only). -/
def jsIsWs (c : Char) : Bool := c == ' ' || c == '\t' || c == '\n' || c == '\r'

/-- String.prototype.trim: strip whitespace from both ends. -/
def jsTrim (s : String) : String :=
  String.mk (((s.data.dropWhile jsIsWs).reverse.dropWhile jsIsWs).reverse)

/-- String.prototype.split with a single-character separator. -/
def splitOnChar (c : Char) (s : String) : List String :=
  (s.data.splitOnP (fun x => x == c)).map String.mk

/-- String.prototype.includes with a single-character needle. -/
def containsChar (s : String) (c : Char) : Bool := s.data.contains c

/-- String.prototype.startsWith, modelled over the character list. -/
def jsStartsWith (s pre : String) : Bool := s.data.take pre.data.length == pre.data

/-- JavaScript-like values as stored in documents and passed to queries. -/
inductive JsVal where
  | vStr (s : String)
  | vNum (n : Int)
  | vBool (b : Bool)
  | vNull
  | vDate (iso : String)
  | vArr (elems : List JsVal)
  | vObj (fields : List (String × JsVal))

/-- A JS object: association list of fields in property order. -/
abbrev Doc := List (String × JsVal)

/- JS String(value) coercion; arrays render as comma-joined elements with null
elements rendered empty, objects render as the generic object tag. -/
mutual

def jsToString : JsVal → String
  | .vStr s => s
  | .vNum n => toString n
  | .vBool b => toString b
  | .vNull => "null"
  | .vDate iso => iso
  | .vArr l => jsArrToString l
  | .vObj _ => "[object Object]"

def jsArrToString : List JsVal → String
  | [] => ""
  | [x] => (match x with | .vNull => "" | v => jsToString v)
  | x :: y :: xs =>
      (match x with | .vNull => "" | v => jsToString v) ++ "," ++ jsArrToString (y :: xs)

end

/-- ValueNormalizer.normalize: lowercase+trim strings, stringify numbers,
booleans and dates, null for null/undefined, String(value) otherwise.
The `none` result models the JS `null` return. -/
def ValueNormalizer.normalize : JsVal → Option String
  | .vStr s => some (jsTrim (jsToLowerCase s))
  | .vNum n => some (toString n)
  | .vBool b => some (toString b)
  | .vDate iso => some iso
  | .vNull => none
  | .vArr l => some (jsToString (.vArr l))
  | .vObj fs => some (jsToString (.vObj fs))

/-- normalize applied to a possibly-undefined value (undefined also maps to null). -/
def normalizeOpt (o : Option JsVal) : Option String :=
  match o with
  | none => none
  | some v => ValueNormalizer.normalize v

/-- Property lookup on a JS object (`doc[field]`); `none` models `undefined`. -/
def jsLookup (d : Doc) (k : String) : Option JsVal :=
  match d.find? (fun p => p.1 == k) with
  | none => none
  | some p => some p.2

/-- JS truthiness test on defined values ("", 0, false and null are falsy). -/
def jsFalsy : JsVal → Bool
  | .vNull => true
  | .vStr s => s == ""
  | .vNum n => n == 0
  | .vBool b => !b
  | _ => false

/-- One step of JS object-literal assignment: an existing key is overwritten in
place (keeping its position), a fresh key is appended. -/
def jsAssign (d : Doc) (k : String) (v : JsVal) : Doc :=
  if d.any (fun p => p.1 == k) then
    d.map (fun p => if p.1 == k then (k, v) else p)
  else d ++ [(k, v)]

/-- The object literal `{ id, ...doc }` from UnifiedCollection.insert: the `id`
property is written first and then every property of `doc` is assigned over it,
so a caller-supplied `id` field overwrites the synthesized one. -/
def objLitIdSpread (idVal : JsVal) (d : Doc) : Doc :=
  d.foldl (fun acc p => jsAssign acc p.1 p.2) [("id", idVal)]

/-- The merge `{ ...existingDoc, ...changes }` from UnifiedCollection.update. -/
def spreadMerge (base changes : Doc) : Doc :=
  changes.foldl (fun acc p => jsAssign acc p.1 p.2) base

/-- doc.id as a string; every document produced by the insert/update pipeline
carries a string id, the sentinel is never reached in the modelled scenarios. -/
def docIdOf (d : Doc) : String :=
  match jsLookup d "id" with
  | some (.vStr s) => s
  | _ => ""

/-- Zero-padded three-digit rendering used for shard directory names. -/
def pad3 (n : Nat) : String :=
  let s := toString n
  String.mk (List.replicate (3 - s.length) '0') ++ s

/-! ### Document storage, hash-based sub-shard policy
(src/storage/DocumentStorageMessagePack.js).
`hash2` and `hash4` abstract `parseInt(md5(id)[0:2],16)` and
`parseInt(md5(id)[2:4],16)`; the claims are independent of the hash. -/

structure MPStorage where
  subShardCount : Nat
  hash2 : String → Nat
  hash4 : String → Nat

/-- getDocumentPath of the MessagePack storage: a pure function of the id. -/
def MPStorage.getDocumentPath (s : MPStorage) (id : String) : String :=
  pad3 (s.hash2 id % 256) ++ "/" ++ pad3 (s.hash4 id % s.subShardCount) ++ "/" ++ id ++ ".json"

/-- Filesystem contents for the hash-based storage: path to stored document. -/
abbrev FsA := String → Option Doc

def MPStorage.saveDocument (s : MPStorage) (fs : FsA) (id : String) (doc : Doc) : FsA :=
  fun p => if p = s.getDocumentPath id then some doc else fs p

def MPStorage.loadDocument (s : MPStorage) (fs : FsA) (id : String) : Option Doc :=
  fs (s.getDocumentPath id)

/-! ### Document storage, count-based sub-shard policy
(src/storage/DocumentStorage.js, the storage UnifiedCollection imports).
`getDocumentPath` counts the entries of the primary shard directory whose name
ends in `.json` and divides by `maxPerDir`.  Documents are written into
sub-shard subdirectories, whose names do not end in `.json`, so neither
`saveDocument` nor the `mkdir` calls change that count; it is tracked here as
the `directJson` component of the filesystem state, which covers arbitrary
prior populations of the collection directory. -/

structure CBStorage where
  maxPerDir : Nat
  hashShard : String → Nat

structure FsB where
  directJson : Nat → Nat
  files : String → Option Doc

def CBStorage.shardNum (s : CBStorage) (id : String) : Nat :=
  s.hashShard id % 256

/-- getDocumentPath of the count-based storage: depends on the state through the
number of direct `.json` entries of the primary shard directory. -/
def CBStorage.getDocumentPath (s : CBStorage) (fs : FsB) (id : String) : String :=
  let shard := s.shardNum id
  let subShard := fs.directJson shard / s.maxPerDir
  pad3 shard ++ "/" ++ pad3 subShard ++ "/" ++ id ++ ".json"

def CBStorage.saveDocument (s : CBStorage) (fs : FsB) (id : String) (doc : Doc) : FsB :=
  let p := s.getDocumentPath fs id
  { fs with files := fun q => if q = p then some doc else fs.files q }

def CBStorage.loadDocument (s : CBStorage) (fs : FsB) (id : String) : Option Doc :=
  fs.files (s.getDocumentPath fs id)

/-! ### SchemaParser (src/core/SchemaParser.js) -/

/-- A field definition object of a schema; `index` and `indexed` are the two
per-field flags getIndexedFields looks for. -/
structure FieldDef where
  ftype : Option String
  required : Bool
  indexed : Bool
  index : Bool

structure RelationDef where
  collection : String
  field : String

/-- A schema as supplied by the caller, including its `indices` mapping
(index name to ordered field list). -/
structure SchemaIn where
  fields : List (String × FieldDef)
  relations : List (String × RelationDef)
  validateRelations : Bool
  indices : List (String × List String)

/-- The result of SchemaParser.parseSchema: only `fields`, `relations` and
`validateRelations` are kept — the `indices` mapping of the input schema is
dropped. -/
structure ParsedSchema where
  fields : List (String × FieldDef)
  relations : List (String × RelationDef)
  validateRelations : Bool

/-- SchemaParser.parseSchema; relations are modelled already in object form
(parseRelations only expands the string shorthand). -/
def SchemaParser.parseSchema (s : SchemaIn) : ParsedSchema :=
  { fields := s.fields, relations := s.relations, validateRelations := s.validateRelations }

/-- SchemaParser.validateFieldType; null/undefined always pass.  The
Date.parse-based acceptance of date-like strings is not modelled (no claim
exercises it). -/
def SchemaParser.validateFieldType (v : JsVal) (expected : String) : Bool :=
  match v with
  | .vNull => true
  | _ =>
    match expected with
    | "string" => (match v with | .vStr _ => true | _ => false)
    | "number" => (match v with | .vNum _ => true | _ => false)
    | "boolean" => (match v with | .vBool _ => true | _ => false)
    | "array" => (match v with | .vArr _ => true | _ => false)
    | "object" => (match v with | .vObj _ => true | _ => false)
    | "date" => (match v with | .vDate _ => true | _ => false)
    | _ => true

/-- SchemaParser.validateDocument: required fields must be defined and
non-null; defined fields with a declared type must type-check. -/
def SchemaParser.validateDocument (doc : Doc) (s : ParsedSchema) : List String :=
  s.fields.foldl (fun errs p =>
    let fname := p.1
    let fd := p.2
    let errs' :=
      if fd.required &&
          (match jsLookup doc fname with
           | none => true
           | some .vNull => true
           | some _ => false) then
        errs ++ ["Missing required field: " ++ fname]
      else errs
    match jsLookup doc fname, fd.ftype with
    | some v, some t =>
        if SchemaParser.validateFieldType v t then errs'
        else errs' ++ ["Invalid type for field " ++ fname]
    | _, _ => errs') []

/-- SchemaParser.getIndexedFields: the fields carrying an `indexed` or `index`
flag, followed by relation fields not already present.  The `indices` mapping
of the schema is never consulted (parseSchema dropped it). -/
def SchemaParser.getIndexedFields (s : ParsedSchema) : List String :=
  let fromFields := (s.fields.filter (fun p => p.2.indexed || p.2.index)).map (fun p => p.1)
  s.relations.foldl (fun acc p => if acc.contains p.1 then acc else acc ++ [p.1]) fromFields

/-- Modelled from the spec: `SchemaParser.getSingleFieldIndexNames` is called by
the planner (MultiFieldQueryEngine._evaluateIntersectMatch and _planOrQuery)
but is missing from src/ — per the spec, `indices` maps an index name to an
ordered list of field names and "a single-field index is simply a list of
length 1", so this returns the map from field name to index name restricted to
the indices whose field list has length 1. -/
def SchemaParser.getSingleFieldIndexNames (indices : List (String × List String)) :
    List (String × String) :=
  indices.foldl (fun acc p =>
    match p.2 with
    | [f] => acc ++ [(f, p.1)]
    | _ => acc) []

/-- Membership in the single-field-index map (`singleFieldIndexNames.has(field)`). -/
def hasSingleFieldIndex (sfi : List (String × String)) (field : String) : Bool :=
  sfi.any (fun p => p.1 == field)

/-! ### ShardedIndexManager (src/indexing/ShardedIndexManager.js) -/

/-- Per-index static state: the ordered field list, whether the index was
constructed composite (`Array.isArray(field)`), the shard count and the
abstracted `parseInt(md5(key)[0:2],16)` routing hash. -/
structure ShardedIndexManager where
  fields : List String
  isComposite : Bool
  shardCount : Nat
  keyHash : String → Nat

/-- One shard: composite key to posting list, in insertion order. -/
abbrev ShardMap := List (String × List String)

/-- The on-disk shard files of one index. -/
abbrev Shards := Nat → ShardMap

/-- Composite key of an ordered value tuple:
`values.map(normalize).join('|')`, where Array.prototype.join renders the null
normalizations as the empty string. -/
def joinKeyVals (vals : List JsVal) : String :=
  String.intercalate "|" (vals.map (fun v => (ValueNormalizer.normalize v).getD ""))

/-- The method _generateCompositeKey on an array argument: the composite branch joins the
normalized values with `|`; the single-field branch normalizes the argument
itself (an array normalizes through String(value)). -/
def ShardedIndexManager.generateCompositeKey (m : ShardedIndexManager)
    (vals : List JsVal) : String :=
  if m.isComposite then joinKeyVals vals
  else (ValueNormalizer.normalize (.vArr vals)).getD ""

/-- The method _getShardKey: hash of the composite key modulo the shard count. -/
def ShardedIndexManager.getShardKey (m : ShardedIndexManager) (vals : List JsVal) : Nat :=
  m.keyHash (m.generateCompositeKey vals) % m.shardCount

def shardLookup (sh : ShardMap) (key : String) : Option (List String) :=
  match sh.find? (fun p => p.1 == key) with
  | none => none
  | some p => some p.2

/-- shard.set(key, []) followed by a guarded push of docId: a missing key is
appended with the singleton posting, an existing posting gains docId only if
absent. -/
def shardAdd (sh : ShardMap) (key : String) (docId : String) : ShardMap :=
  match shardLookup sh key with
  | none => sh ++ [(key, [docId])]
  | some ids =>
      if ids.contains docId then sh
      else sh.map (fun p => if p.1 == key then (p.1, p.2 ++ [docId]) else p)

/-- The composite branch of ShardedIndexManager.add. -/
def ShardedIndexManager.addComposite (m : ShardedIndexManager) (st : Shards)
    (vals : List JsVal) (docId : String) : Shards :=
  let key := m.generateCompositeKey vals
  let sk := m.getShardKey vals
  fun i => if i = sk then shardAdd (st i) key docId else st i

/-- ShardedIndexManager.add: the non-composite branch reads the undeclared
identifier `value` (the parameter is `values`) and therefore throws a
ReferenceError on every call, before mutating any shard. -/
def ShardedIndexManager.add (m : ShardedIndexManager) (st : Shards)
    (vals : List JsVal) (docId : String) : Except String Shards :=
  if !m.isComposite then .error "ReferenceError: value is not defined"
  else .ok (m.addComposite st vals docId)

/-- ShardedIndexManager.getExact: no arity check of any kind — the composite
key is generated from whatever tuple is passed and looked up, absent keys
giving the empty posting list. -/
def ShardedIndexManager.getExact (m : ShardedIndexManager) (st : Shards)
    (vals : List JsVal) : Except String (List String) :=
  .ok ((shardLookup (st (m.getShardKey vals)) (m.generateCompositeKey vals)).getD [])

/-- JS dedup `[...new Set(results)]`: deduplicate keeping first occurrences. -/
def dedupFirst (l : List String) : List String :=
  l.foldl (fun acc x => if acc.contains x then acc else acc ++ [x]) []

/-- The prefix key `prefixValues.map(normalize).join('|')`. -/
def prefixKeyOf (prefixValues : List JsVal) : String := joinKeyVals prefixValues

/-- ShardedIndexManager.getPrefix: rejects only non-composite managers; for a
composite manager it scans every shard and unions the postings of the keys
equal to the prefix key or extending it past a `|`, deduplicated.  No arity
bound on the prefix is enforced (an empty prefix is accepted). -/
def ShardedIndexManager.getPrefixIds (m : ShardedIndexManager) (st : Shards)
    (prefixValues : List JsVal) : Except String (List String) :=
  if !m.isComposite then
    .error "Prefix queries only available for composite indices"
  else
    let pk := prefixKeyOf prefixValues
    .ok (dedupFirst (((List.range m.shardCount).map (fun i =>
      ((st i).filter (fun p => jsStartsWith p.1 (pk ++ "|") || p.1 == pk)).map
        (fun p => p.2))).flatten.flatten))

/-! ### RegularIndexManager (src/indexing/RegularIndexManager.js) and the
non-sharded branch of UnifiedCollection._updateAllIndices.
Keys are `Option String` because the incremental branch feeds
`normalize(doc[field])` to the Map without a null/undefined guard. -/

abbrev RegIndex := List (Option String × List String)

def regLookup (idx : RegIndex) (k : Option String) : Option (List String) :=
  match idx.find? (fun p => p.1 == k) with
  | none => none
  | some p => some p.2

/-- Models `if (!index.has(k)) index.set(k, []); index.get(k).push(docId)` — note the
unconditional push (no duplicate check). -/
def regPush (idx : RegIndex) (k : Option String) (docId : String) : RegIndex :=
  match regLookup idx k with
  | none => idx ++ [(k, [docId])]
  | some _ => idx.map (fun p => if p.1 == k then (p.1, p.2 ++ [docId]) else p)

/-- The `loadedIndices` insert branch of UnifiedCollection._updateAllIndices for
one field: the whole field value — array or not, defined or not — goes through
normalize and is used as a single key. -/
def regUpdateInsert (idx : RegIndex) (doc : Doc) (field : String) : RegIndex :=
  regPush idx (normalizeOpt (jsLookup doc field)) (docIdOf doc)

/-- Guarded push used by the array branch of RegularIndexManager.buildIndex
(this branch does check `includes` before pushing). -/
def regPushDedup (idx : RegIndex) (k : Option String) (docId : String) : RegIndex :=
  match regLookup idx k with
  | none => idx ++ [(k, [docId])]
  | some ids =>
      if ids.contains docId then idx
      else idx.map (fun p => if p.1 == k then (p.1, p.2 ++ [docId]) else p)

/-- One document step of RegularIndexManager.buildIndex: undefined/null values
are skipped, array values fan out one key per element, scalar values are keyed
by their own normalization. -/
def regBuildStep (idx : RegIndex) (doc : Doc) (field : String) : RegIndex :=
  match jsLookup doc field with
  | none => idx
  | some .vNull => idx
  | some (.vArr items) =>
      items.foldl (fun acc item =>
        regPushDedup acc (ValueNormalizer.normalize item) (docIdOf doc)) idx
  | some v => regPush idx (ValueNormalizer.normalize v) (docIdOf doc)

/-- RegularIndexManager.buildIndex over the enumerated document set. -/
def RegularIndexManager.buildIndex (docs : List Doc) (field : String) : RegIndex :=
  docs.foldl (fun idx doc => regBuildStep idx doc field) []

/-! ### UnifiedCollection (src/core/UnifiedCollection.js) -/

/-- The sharded index managers a collection holds, by field name.  `_buildIndex`
constructs every manager from a plain field-name string, so every manager is
non-composite; only the shard state varies. -/
abbrev CollIndices := List (String × Shards)

def collHasIndex (idxs : CollIndices) (field : String) : Bool :=
  idxs.any (fun p => p.1 == field)

/-- The method _buildSchemaIndices on a fresh (empty) collection: one empty sharded index
per field reported by getIndexedFields. -/
def UnifiedCollection.buildSchemaIndices (s : ParsedSchema) : CollIndices :=
  (SchemaParser.getIndexedFields s).map (fun f => (f, fun _ => []))

/-- Effect of one field of UnifiedCollection._updateAllIndices on a sharded
single-field index.  ShardedIndexManager.add throws a ReferenceError before
mutating anything (see ShardedIndexManager.add), and the update/delete
branches call `shardedIndex.remove`, which does not exist on
ShardedIndexManager (only removeComposite does), so reaching a defined
non-null value always raises; a skipped field leaves the state as is. -/
def updateShardedField (op : String) (doc oldDoc : Doc) (field : String) : Except String Unit :=
  if op == "insert" then
    match jsLookup doc field with
    | none => .ok ()
    | some .vNull => .ok ()
    | some _ => .error "ReferenceError: value is not defined"
  else if op == "update" then
    match jsLookup oldDoc field with
    | some .vNull =>
        (match jsLookup doc field with
         | none => .ok ()
         | some .vNull => .ok ()
         | some _ => .error "ReferenceError: value is not defined")
    | none =>
        (match jsLookup doc field with
         | none => .ok ()
         | some .vNull => .ok ()
         | some _ => .error "ReferenceError: value is not defined")
    | some _ => .error "TypeError: shardedIndex.remove is not a function"
  else
    match jsLookup doc field with
    | none => .ok ()
    | some .vNull => .ok ()
    | some _ => .error "TypeError: shardedIndex.remove is not a function"

/-- UnifiedCollection._updateAllIndices over every indexed field; fields without
an attached manager are skipped (the loadedIndices branch of a non-sharding
collection is modelled by regUpdateInsert above). -/
def UnifiedCollection.updateAllIndices (s : ParsedSchema) (idxs : CollIndices)
    (op : String) (doc oldDoc : Doc) : Except String CollIndices :=
  match (SchemaParser.getIndexedFields s).foldl (fun acc field =>
      match acc with
      | .error e => .error e
      | .ok () =>
          if collHasIndex idxs field then updateShardedField op doc oldDoc field
          else .ok ()) (Except.ok ()) with
  | .ok () => .ok idxs
  | .error e => .error e

/-- SchemaParser.validateRelations resolves references through the db handle;
the collections of the claims declare no relations, for which the source loop
yields no errors (a nonempty relation map is outside this model). -/
def validateRelationsErrors (s : ParsedSchema) (_doc : Doc) : List String :=
  s.relations.foldl (fun errs _ => errs) []

/-- UnifiedCollection.insert: builds `{ id, ...doc }` (a caller-supplied id
field overwrites the synthesized one), validates, saves the document under the
synthesized id, and fans out to the indices.  The id generator
`Date.now() + '-' + random` is abstracted as the `genId` argument. -/
def UnifiedCollection.insert (s : ParsedSchema) (stor : CBStorage)
    (idxs : CollIndices) (fs : FsB) (genId : String) (d : Doc) :
    Except String (Doc × FsB × CollIndices) :=
  let docWithId := objLitIdSpread (.vStr genId) d
  let validationErrors := SchemaParser.validateDocument docWithId s
  if validationErrors.length > 0 then .error "Schema validation failed"
  else
    let relationErrors :=
      if s.validateRelations then validateRelationsErrors s docWithId else []
    if relationErrors.length > 0 then .error "Relation validation failed"
    else
      let fs' := stor.saveDocument fs genId docWithId
      match UnifiedCollection.updateAllIndices s idxs "insert" docWithId [] with
      | .error e => .error e
      | .ok idxs' => .ok (docWithId, fs', idxs')

/-- UnifiedCollection.getById delegates to storage.loadDocument. -/
def UnifiedCollection.getById (stor : CBStorage) (fs : FsB) (id : String) : Option Doc :=
  stor.loadDocument fs id

/-- UnifiedCollection.update: load, shallow-merge, re-validate, save, fan out. -/
def UnifiedCollection.update (s : ParsedSchema) (stor : CBStorage)
    (idxs : CollIndices) (fs : FsB) (id : String) (changes : Doc) :
    Except String (Doc × FsB × CollIndices) :=
  match UnifiedCollection.getById stor fs id with
  | none => .error "Document not found"
  | some existingDoc =>
      let updatedDoc := spreadMerge existingDoc changes
      let validationErrors := SchemaParser.validateDocument updatedDoc s
      if validationErrors.length > 0 then .error "Schema validation failed"
      else
        let fs' := stor.saveDocument fs id updatedDoc
        match UnifiedCollection.updateAllIndices s idxs "update" updatedDoc existingDoc with
        | .error e => .error e
        | .ok idxs' => .ok (updatedDoc, fs', idxs')

/-- Reading a posting list for a single-field exact value on a collection: with
no manager attached for the field there is no index to consult. -/
def UnifiedCollection.indexGetExact (idxs : CollIndices) (field : String)
    (vals : List JsVal) (hash : String → Nat) : List String :=
  match idxs.find? (fun p => p.1 == field) with
  | none => []
  | some p =>
      match ShardedIndexManager.getExact ⟨[field], false, 16, hash⟩ p.2 vals with
      | .ok ids => ids
      | .error _ => []

/-! ### MultiFieldQueryEngine: the equality predicate
(_matchesCondition / _getNestedValue) -/

/-- Property access step used by _getNestedValue; access on a primitive yields
undefined (built-in properties of primitives are not modelled). -/
def objGet : JsVal → String → Option JsVal
  | .vObj fs, k => jsLookup fs k
  | _, _ => none

/-- Models `path.split('.').reduce((current, key) => current && current[key], obj)`:
a falsy intermediate short-circuits `&&` and is carried through unchanged. -/
def getNestedSteps (cur : Option JsVal) : List String → Option JsVal
  | [] => cur
  | k :: ks =>
      match cur with
      | none => getNestedSteps none ks
      | some v =>
          if jsFalsy v then getNestedSteps (some v) ks
          else getNestedSteps (objGet v k) ks

def MultiFieldQueryEngine.getNestedValue (doc : Doc) (path : String) : Option JsVal :=
  getNestedSteps (some (.vObj doc)) (splitOnChar '.' path)

/-- The predicate _matchesCondition: the literal property `doc[field]` is consulted first —
missing or null yields false, an array value matches element-wise — and only
then a dotted field name routes to the nested comparison; otherwise the two
normalizations are compared. -/
def MultiFieldQueryEngine.matchesCondition (doc : Doc) (field : String)
    (expected : JsVal) : Bool :=
  match jsLookup doc field with
  | none => false
  | some .vNull => false
  | some (.vArr items) =>
      items.any (fun item =>
        ValueNormalizer.normalize item == ValueNormalizer.normalize expected)
  | some docValue =>
      if containsChar field '.' then
        normalizeOpt (MultiFieldQueryEngine.getNestedValue doc field)
          == ValueNormalizer.normalize expected
      else
        ValueNormalizer.normalize docValue == ValueNormalizer.normalize expected

/-! ### MultiFieldQueryEngine: the AND/OR planner (the version driven by
schema.indices).  Estimated selectivities (the doubles 0.1^p, 0.1/n, 1 and the
Infinity arising from 0.1/0) are carried exactly in ℚ, with `none` standing
for Infinity; at every tie the claims exercise (power/quotient values of the
same magnitude) the double computations are also exact, so the exact carrier
agrees with the runtime comparisons there. -/

inductive Strategy where
  | exactMatch
  | prefixMatch
  | indexSeekFilter
  | indexIntersect
  | indexUnion
  | fullScan
  | noneS
  deriving DecidableEq

/-- Estimated selectivity; `none` models Infinity. -/
abbrev Sel := Option ℚ

def selLE : Sel → Sel → Bool
  | some a, some b => a ≤ b
  | some _, none => true
  | none, some _ => false
  | none, none => true

def selLT (a b : Sel) : Bool := !(selLE b a)

structure Candidate where
  strategy : Strategy
  indexedFields : List String
  nonIndexedFields : List String
  prefixLength : Nat
  estimatedSelectivity : Sel

/-- The consecutive-prefix loop of _evaluateCompositeMatch: the number of
initial query fields equal to the index fields position by position, in the
query's given order and from position 0 of the index. -/
def prefixLen : List String → List String → Nat
  | q :: qs, i :: is => if q = i then prefixLen qs is + 1 else 0
  | _, _ => 0

/-- The method _evaluateCompositeMatch for one declared index (its manager attached):
derives the strategy from the matched prefix length and estimates selectivity
as 0.1^prefixLength — including prefixLength 0, for which the candidate keeps
strategy NONE and selectivity 1 and stays in the candidate list. -/
def evalCompositeMatch (indexFields : List String)
    (conds : List (String × JsVal)) : Candidate :=
  let queryFields := conds.map (fun c => c.1)
  let p := prefixLen queryFields indexFields
  { strategy :=
      if p = queryFields.length ∧ p = indexFields.length then .exactMatch
      else if 0 < p ∧ p < indexFields.length then .prefixMatch
      else if 0 < p then .indexSeekFilter
      else .noneS,
    indexedFields := queryFields.take p,
    nonIndexedFields := queryFields.drop p,
    prefixLength := p,
    estimatedSelectivity := some ((1 / 10 : ℚ) ^ p) }

/-- The method _evaluateIntersectMatch: the query fields carrying a single-field index,
kept in query order (the sort by probed posting counts precedes the population
of `indexedConditions` and therefore sorts an empty array, so the probe results
never influence the outcome).  Selectivity 0.1/n, which is Infinity (`none`)
when no field is indexed — in that case the strategy stays NONE. -/
def evalIntersectMatch (sfi : List (String × String))
    (conds : List (String × JsVal)) : Candidate :=
  let fields := conds.map (fun c => c.1)
  let indexedConditions := fields.filter (fun f => hasSingleFieldIndex sfi f)
  { strategy := if indexedConditions.length > 0 then .indexIntersect else .noneS,
    indexedFields := indexedConditions,
    nonIndexedFields := fields.filter (fun f => !hasSingleFieldIndex sfi f),
    prefixLength := 0,
    estimatedSelectivity :=
      if indexedConditions.length = 0 then none
      else some ((1 / 10 : ℚ) / indexedConditions.length) }

def fullScanCandidate : Candidate :=
  { strategy := .fullScan, indexedFields := [], nonIndexedFields := [],
    prefixLength := 0, estimatedSelectivity := some 1 }

/-- The candidate list _planAndQuery builds: composite candidates in schema
declaration order, then the intersect candidate, then full scan. -/
def candidatesOf (indices : List (String × List String))
    (conds : List (String × JsVal)) : List Candidate :=
  indices.map (fun p => evalCompositeMatch p.2 conds)
    ++ [evalIntersectMatch (SchemaParser.getSingleFieldIndexNames indices) conds]
    ++ [fullScanCandidate]

/-- Stable insertion modelling
`matches.sort((a, b) => a.estimatedSelectivity - b.estimatedSelectivity)`:
a stable sort under a consistent comparator is unique, so insertion sort stands
in for the runtime sort. -/
def insertBySel (c : Candidate) : List Candidate → List Candidate
  | [] => [c]
  | x :: xs =>
      if selLE c.estimatedSelectivity x.estimatedSelectivity then c :: x :: xs
      else x :: insertBySel c xs

def sortBySel : List Candidate → List Candidate
  | [] => []
  | x :: xs => insertBySel x (sortBySel xs)

/-- The method _planAndQuery: sort the candidates by estimated selectivity and take the
first element. -/
def planAndQuery (indices : List (String × List String))
    (conds : List (String × JsVal)) : Candidate :=
  (sortBySel (candidatesOf indices conds)).headD fullScanCandidate

/-- Keep-left minimum of two candidates under the selectivity comparator. -/
def selMin (a b : Candidate) : Candidate :=
  if selLT b.estimatedSelectivity a.estimatedSelectivity then b else a

/-- The earliest element of minimal estimated selectivity, phrased as a fold. -/
def firstMinBySel (c : Candidate) (cs : List Candidate) : Candidate :=
  cs.foldl selMin c

def firstMinOfList : List Candidate → Candidate
  | [] => fullScanCandidate
  | x :: xs => firstMinBySel x xs

/-- Strategy rank as the claim words it: EXACT_MATCH preferred over
PREFIX_MATCH over INDEX_INTERSECT over INDEX_SEEK_FILTER over FULL_SCAN
(smaller rank preferred). -/
def strategyRank : Strategy → Nat
  | .exactMatch => 0
  | .prefixMatch => 1
  | .indexIntersect => 2
  | .indexSeekFilter => 3
  | .fullScan => 4
  | .indexUnion => 5
  | .noneS => 6

/-- The claimed pick, following the claim's words: smallest estimated
selectivity, ties broken by the strategy rank. -/
def claimedBetter (a b : Candidate) : Bool :=
  selLT a.estimatedSelectivity b.estimatedSelectivity ||
    (a.estimatedSelectivity == b.estimatedSelectivity &&
      decide (strategyRank a.strategy < strategyRank b.strategy))

def claimedPlanAndQuery (indices : List (String × List String))
    (conds : List (String × JsVal)) : Candidate :=
  match candidatesOf indices conds with
  | [] => fullScanCandidate
  | x :: xs => xs.foldl (fun acc c => if claimedBetter c acc then c else acc) x

/-- The strategy derivation exactly as claim C6 words it, as a function of the
matched prefix length p, the index arity k and the query arity q; `none`
models "the index is discarded". -/
def claimedCompositeStrategy (p k q : Nat) : Option Strategy :=
  if p = k ∧ k = q then some .exactMatch
  else if 0 < p ∧ p < k ∧ p = q then some .prefixMatch
  else if 0 < p ∧ p < q then some .indexSeekFilter
  else none

/-- The method _planOrQuery (the version driven by getSingleFieldIndexNames): INDEX_UNION
exactly when at least one field is indexed and no field is non-indexed,
otherwise FULL_SCAN. -/
def planOrQuery (indices : List (String × List String))
    (conds : List (String × JsVal)) : Strategy :=
  let fields := conds.map (fun c => c.1)
  let sfi := SchemaParser.getSingleFieldIndexNames indices
  let indexedFields := fields.filter (fun f => hasSingleFieldIndex sfi f)
  let nonIndexedFields := fields.filter (fun f => !hasSingleFieldIndex sfi f)
  if indexedFields.length > 0 ∧ nonIndexedFields.length = 0 then .indexUnion
  else .fullScan

/-! ### Concrete scenarios referenced by the theorems -/

/-- Boolean success test on a modelled fallible operation. -/
def isOkB {α : Type} (e : Except String α) : Bool :=
  match e with
  | .ok _ => true
  | .error _ => false

/- C2 scenario: insert a document that itself carries an `id` field. -/

def c2Stor : CBStorage := ⟨10000, fun _ => 0⟩

def c2Fs0 : FsB := ⟨fun _ => 0, fun _ => none⟩

def c2Schema : ParsedSchema := ⟨[], [], false⟩

def c2Doc : Doc := [("id", .vStr "a"), ("name", .vStr "x")]

def c2Ins : Except String (Doc × FsB × CollIndices) :=
  UnifiedCollection.insert c2Schema c2Stor [] c2Fs0 "z1" c2Doc

def c2Ret : Doc :=
  match c2Ins with
  | .ok r => r.1
  | .error _ => []

def c2Fs1 : FsB :=
  match c2Ins with
  | .ok r => r.2.1
  | .error _ => c2Fs0

/- C3 scenario: schema declaring `indices = { age: [age] }`, insert `{age: 29}`
under synthesized id `z`, then `update(z, {age: 30})`. -/

def c3SchemaIn : SchemaIn :=
  { fields := [("age", ⟨some "number", false, false, false⟩)],
    relations := [], validateRelations := false,
    indices := [("age", ["age"])] }

def c3Schema : ParsedSchema := SchemaParser.parseSchema c3SchemaIn

def c3Stor : CBStorage := ⟨10000, fun _ => 0⟩

def c3Fs0 : FsB := ⟨fun _ => 0, fun _ => none⟩

def c3Idx0 : CollIndices := UnifiedCollection.buildSchemaIndices c3Schema

def c3Step1 : Except String (Doc × FsB × CollIndices) :=
  UnifiedCollection.insert c3Schema c3Stor c3Idx0 c3Fs0 "z" [("age", .vNum 29)]

def c3Mid : FsB × CollIndices :=
  match c3Step1 with
  | .ok r => (r.2.1, r.2.2)
  | .error _ => (c3Fs0, c3Idx0)

def c3Step2 : Except String (Doc × FsB × CollIndices) :=
  UnifiedCollection.update c3Schema c3Stor c3Mid.2 c3Mid.1 "z" [("age", .vNum 30)]

def c3Final : FsB × CollIndices :=
  match c3Step2 with
  | .ok r => (r.2.1, r.2.2)
  | .error _ => c3Mid

/- C4 scenario: one insert of a document whose indexed field holds an array,
compared between the incremental regular-index branch and a full rebuild. -/

def c4Doc : Doc := [("id", .vStr "d1"), ("skills", .vArr [.vStr "a", .vStr "b"])]

def c4Incremental : RegIndex := regUpdateInsert [] c4Doc "skills"

def c4Rebuilt : RegIndex := RegularIndexManager.buildIndex [c4Doc] "skills"

/- C5/C6 scenario inputs. -/

def c5Indices : List (String × List String) := [("a", ["a"])]

def c5Conds : List (String × JsVal) := [("a", .vStr "v"), ("b", .vStr "w")]

def c6Conds : List (String × JsVal) := [("a", .vStr "v"), ("b", .vStr "w")]

/- C8 scenario: a two-field composite index holding one posting. -/

def c8Mgr : ShardedIndexManager := ⟨["a", "b"], true, 16, fun _ => 0⟩

def c8St : Shards := fun i => if i = 0 then [("x|y", ["id1"])] else []

/- C9 scenario: a dotted query path whose nested value exists and matches. -/

def c9Doc : Doc := [("a", .vObj [("b", .vStr "x")])]

/- C9 witness document: the literal dotted-name property exists alongside the
nested path. -/

def c9DocLit : Doc := [("a.b", .vStr "Y"), ("a", .vObj [("b", .vStr " y ")])]

end DBFS

namespace DBFS

/-! ### Theorems -/

/-- C1: a loadDocument issued after a completed saveDocument on the same
collection (single writer) returns the saved document, and the path computed
for the read is the path the write used, for every prior population of the
collection: in the hash-based storage the path is a pure function of the id,
and in the count-based storage the save writes inside a sub-shard directory
and so leaves the direct `.json` entry count, hence the computed path,
unchanged. -/
theorem C1_load_after_save :
    (∀ (s : MPStorage) (fs : FsA) (id : String) (doc : Doc),
        s.loadDocument (s.saveDocument fs id doc) id = some doc) ∧
    (∀ (s : CBStorage) (fs : FsB) (id : String) (doc : Doc),
        (s.saveDocument fs id doc).directJson = fs.directJson ∧
        s.getDocumentPath (s.saveDocument fs id doc) id = s.getDocumentPath fs id ∧
        s.loadDocument (s.saveDocument fs id doc) id = some doc) := by
  constructor
  · intro s fs id doc
    simp [MPStorage.loadDocument, MPStorage.saveDocument]
  · intro s fs id doc
    refine ⟨rfl, rfl, ?_⟩
    simp [CBStorage.loadDocument, CBStorage.saveDocument, CBStorage.getDocumentPath]

/-- C2, evaluated at the failing input: inserting a document that itself
carries `id = "a"` (synthesized id `"z1"`) succeeds and returns a document
whose id is the caller's `"a"`, but getById of that returned id finds nothing —
the file was stored under the synthesized id `"z1"`, where getById returns the
document whose id field still reads `"a"`. -/
theorem C2_insert_getById_failing_input :
    isOkB c2Ins = true ∧
    jsLookup c2Ret "id" = some (.vStr "a") ∧
    UnifiedCollection.getById c2Stor c2Fs1 "a" = none ∧
    UnifiedCollection.getById c2Stor c2Fs1 "z1" = some c2Doc := by
  refine ⟨rfl, rfl, rfl, rfl⟩

/-- C3, evaluated at the failing input: under a schema declaring
`indices = {age: [age]}`, parseSchema drops the `indices` mapping and
getIndexedFields reports nothing, so no index manager is ever built; the
insert and the update both succeed and the document is rewritten, but the
posting set for age = 30 is empty — it does not contain `z` exactly once. -/
theorem C3_update_reindex_failing_input :
    SchemaParser.getIndexedFields c3Schema = [] ∧
    c3Idx0 = [] ∧
    isOkB c3Step1 = true ∧
    isOkB c3Step2 = true ∧
    UnifiedCollection.getById c3Stor c3Final.1 "z" = some [("id", .vStr "z"), ("age", .vNum 30)] ∧
    UnifiedCollection.indexGetExact c3Final.2 "age" [.vNum 30] (fun _ => 0) = [] ∧
    (UnifiedCollection.indexGetExact c3Final.2 "age" [.vNum 30] (fun _ => 0)).count "z" = 0 := by
  refine ⟨rfl, rfl, rfl, rfl, rfl, rfl, rfl⟩

/-- C4, evaluated at the failing input: after the single insert of a document
whose indexed field `skills` holds `["a","b"]`, the incremental regular-index
branch keys the posting under the whole-array normalization `"a,b"`, while the
rebuild fans out one key per element — the key sets differ, so the rebuilt
contents cannot equal the incremental contents modulo posting order; and on the
sharded path the incremental add throws before writing anything. -/
theorem C4_rebuild_vs_incremental_failing_input :
    c4Incremental = [(some "a,b", ["d1"])] ∧
    c4Rebuilt = [(some "a", ["d1"]), (some "b", ["d1"])] ∧
    c4Incremental.map (fun p => p.1) ≠ c4Rebuilt.map (fun p => p.1) ∧
    ShardedIndexManager.add ⟨["skills"], false, 16, fun _ => 0⟩ (fun _ => [])
        [.vArr [.vStr "a", .vStr "b"]] "d1"
      = .error "ReferenceError: value is not defined" := by
  refine ⟨rfl, rfl, by decide, rfl⟩

/-- C8, counterexample: on a composite index over two fields holding the
posting `"x|y" ↦ [id1]`, getExact called with a single value (wrong arity,
1 ≠ 2) is not rejected — it returns the nonempty posting list `[id1]` — and
getPrefix called with the empty prefix (length 0) is not rejected either — it
returns a posting set. -/
theorem C8_arity_counterexample :
    c8Mgr.fields.length = 2 ∧
    ShardedIndexManager.getExact c8Mgr c8St [.vStr "x|y"] = .ok ["id1"] ∧
    ShardedIndexManager.getPrefixIds c8Mgr c8St [] = .ok [] := by
  refine ⟨rfl, rfl, rfl⟩

/-- C9, counterexample: with document `{a: {b: "x"}}` and the dotted equality
`a.b = "x"`, the nested value reached by dot-splitting normalizes equal to the
expected value, yet matchesCondition returns false, because the literal
property `doc["a.b"]` is consulted first and is absent. -/
theorem C9_dotted_counterexample :
    MultiFieldQueryEngine.matchesCondition c9Doc "a.b" (.vStr "x") = false ∧
    normalizeOpt (MultiFieldQueryEngine.getNestedValue c9Doc "a.b")
      = ValueNormalizer.normalize (.vStr "x") := by
  refine ⟨rfl, rfl⟩

/-! Order facts about the selectivity comparator and the stable sort. -/

theorem selLE_total (a b : Sel) : selLE a b = true ∨ selLE b a = true := by
  cases a <;> cases b <;> simp [selLE]
  exact le_total _ _

theorem selLE_trans {a b c : Sel} (h1 : selLE a b = true) (h2 : selLE b c = true) :
    selLE a c = true := by
  cases a <;> cases b <;> cases c <;> simp_all [selLE]
  exact le_trans h1 h2

theorem selMin_left_or_right (a b : Candidate) : selMin a b = a ∨ selMin a b = b := by
  unfold selMin
  split <;> simp

theorem selMin_eq_left {a b : Candidate}
    (h : selLE a.estimatedSelectivity b.estimatedSelectivity = true) : selMin a b = a := by
  unfold selMin selLT
  simp [h]

theorem selMin_eq_right {a b : Candidate}
    (h : selLE a.estimatedSelectivity b.estimatedSelectivity = false) : selMin a b = b := by
  unfold selMin selLT
  simp [h]

theorem selMin_assoc (a b c : Candidate) : selMin (selMin a b) c = selMin a (selMin b c) := by
  cases hab : selLE a.estimatedSelectivity b.estimatedSelectivity <;>
    cases hbc : selLE b.estimatedSelectivity c.estimatedSelectivity
  · -- a ≰ b, b ≰ c: LHS = selMin b c = c; RHS = selMin a c = c since a ≰ c
    have hba : selLE b.estimatedSelectivity a.estimatedSelectivity = true := by
      rcases selLE_total a.estimatedSelectivity b.estimatedSelectivity with h | h
      · rw [h] at hab; cases hab
      · exact h
    have hac : selLE a.estimatedSelectivity c.estimatedSelectivity = false := by
      cases hac : selLE a.estimatedSelectivity c.estimatedSelectivity
      · rfl
      · have := selLE_trans hba hac
        rw [this] at hbc; cases hbc
    rw [selMin_eq_right hab, selMin_eq_right hbc, selMin_eq_right hac]
  · -- a ≰ b, b ≤ c: LHS = selMin b c = b; RHS = selMin a b = b
    rw [selMin_eq_right hab, selMin_eq_left hbc, selMin_eq_right hab]
  · -- a ≤ b, b ≰ c: both sides selMin a c
    rw [selMin_eq_left hab, selMin_eq_right hbc]
  · -- a ≤ b, b ≤ c: LHS = selMin a c = a; RHS = selMin a b = a
    have hac := selLE_trans hab hbc
    rw [selMin_eq_left hab, selMin_eq_left hbc, selMin_eq_left hac, selMin_eq_left hab]

theorem firstMin_insert (x y : Candidate) (ys : List Candidate) :
    selMin x (firstMinBySel y ys) = firstMinBySel (selMin x y) ys := by
  induction ys generalizing y with
  | nil => rfl
  | cons z zs ih =>
      show selMin x (firstMinBySel (selMin y z) zs) = firstMinBySel (selMin (selMin x y) z) zs
      rw [ih (selMin y z), selMin_assoc]

theorem insertBySel_ne_nil (c : Candidate) (l : List Candidate) : insertBySel c l ≠ [] := by
  cases l with
  | nil => simp [insertBySel]
  | cons x xs =>
      unfold insertBySel
      split <;> simp

theorem headD_insertBySel_cons (c m : Candidate) (rest : List Candidate) (d : Candidate) :
    (insertBySel c (m :: rest)).headD d =
      if selLE c.estimatedSelectivity m.estimatedSelectivity then c else m := by
  unfold insertBySel
  split <;> simp_all

theorem headD_sortBySel (x : Candidate) (xs : List Candidate) (d : Candidate) :
    (sortBySel (x :: xs)).headD d = firstMinBySel x xs := by
  induction xs generalizing x with
  | nil => rfl
  | cons y ys ih =>
      obtain ⟨m, rest, hm⟩ : ∃ m rest, sortBySel (y :: ys) = m :: rest := by
        cases h : sortBySel (y :: ys) with
        | nil =>
            exfalso
            have : insertBySel y (sortBySel ys) = [] := h
            exact insertBySel_ne_nil y (sortBySel ys) this
        | cons a b => exact ⟨a, b, rfl⟩
      have hmval : m = firstMinBySel y ys := by
        have h0 := ih y
        rw [hm] at h0
        simpa using h0
      show (insertBySel x (sortBySel (y :: ys))).headD d = firstMinBySel x (y :: ys)
      rw [hm, headD_insertBySel_cons]
      have hsel : (if selLE x.estimatedSelectivity m.estimatedSelectivity then x else m)
          = selMin x m := by
        cases h : selLE x.estimatedSelectivity m.estimatedSelectivity
        · rw [selMin_eq_right h]; simp
        · rw [selMin_eq_left h]; simp
      rw [hsel, hmval, firstMin_insert]
      rfl

/-- C5, counterexample: with the single declared index `a: [a]` and the
conjunction `a = "v" AND b = "w"`, the composite candidate (INDEX_SEEK_FILTER,
selectivity 0.1) and the intersect candidate (INDEX_INTERSECT, selectivity
0.1/1 = 0.1) tie; the claim's strategy-rank tie-break would pick
INDEX_INTERSECT, but the planner keeps the enumeration order and picks
INDEX_SEEK_FILTER. -/
theorem C5_tiebreak_counterexample :
    (planAndQuery c5Indices c5Conds).strategy = .indexSeekFilter ∧
    (claimedPlanAndQuery c5Indices c5Conds).strategy = .indexIntersect ∧
    Strategy.indexSeekFilter ≠ Strategy.indexIntersect := by
  refine ⟨?_, ?_, by decide⟩
  · norm_num +decide [planAndQuery, candidatesOf, evalCompositeMatch, evalIntersectMatch,
      prefixLen, SchemaParser.getSingleFieldIndexNames, hasSingleFieldIndex,
      fullScanCandidate, c5Indices, c5Conds, sortBySel, insertBySel, selLE, selLT]
  · norm_num +decide [claimedPlanAndQuery, candidatesOf, evalCompositeMatch,
      evalIntersectMatch, prefixLen, SchemaParser.getSingleFieldIndexNames,
      hasSingleFieldIndex, fullScanCandidate, c5Indices, c5Conds, claimedBetter,
      strategyRank, selLE, selLT]

/-- C5, amended: the planner picks, among the enumerated candidates (composite
candidates with estimated selectivity 0.1^p in schema declaration order, then
INDEX_INTERSECT with selectivity 0.1/|indices|, then FULL_SCAN with
selectivity 1.0), the earliest candidate of smallest estimated selectivity —
the stable sort breaks ties by enumeration order, not by strategy rank. -/
theorem C5_planner_picks_first_min (indices : List (String × List String))
    (conds : List (String × JsVal)) :
    planAndQuery indices conds = firstMinOfList (candidatesOf indices conds) := by
  unfold planAndQuery firstMinOfList
  cases h : candidatesOf indices conds with
  | nil => simp [sortBySel]
  | cons x xs => exact headD_sortBySel x xs fullScanCandidate

/-! Facts about the consecutive-prefix computation. -/

theorem prefixLen_le (q i : List String) :
    prefixLen q i ≤ q.length ∧ prefixLen q i ≤ i.length := by
  induction q generalizing i with
  | nil => simp [prefixLen]
  | cons a qs ih =>
      cases i with
      | nil => simp [prefixLen]
      | cons b is =>
          by_cases hab : a = b
          · have := ih is
            simp [prefixLen, hab]
            omega
          · simp [prefixLen, hab]

theorem prefixLen_take (q i : List String) :
    q.take (prefixLen q i) = i.take (prefixLen q i) := by
  induction q generalizing i with
  | nil => simp [prefixLen]
  | cons a qs ih =>
      cases i with
      | nil => simp [prefixLen]
      | cons b is =>
          by_cases hab : a = b
          · simp [prefixLen, hab, ih is]
          · simp [prefixLen, hab]

theorem prefixLen_maximal (q i : List String) (n : Nat) (hq : n ≤ q.length)
    (hi : n ≤ i.length) (h : q.take n = i.take n) : n ≤ prefixLen q i := by
  induction n generalizing q i with
  | zero => exact Nat.zero_le _
  | succ m ih =>
      cases q with
      | nil => simp at hq
      | cons a qs =>
          cases i with
          | nil => simp at hi
          | cons b is =>
              simp only [List.take_succ_cons, List.cons.injEq] at h
              simp only [List.length_cons, Nat.succ_le_succ_iff] at hq hi
              have := ih qs is hq hi h.2
              simp [prefixLen, h.1]
              omega

/-- C6, counterexample: for the declared index over fields `(a, c)` and the
query `a = "v" AND b = "w"` the matched prefix length is p = 1 with k = 2
index fields and 2 query fields; the claim derives INDEX_SEEK_FILTER
(0 < p < |query|, and its PREFIX_MATCH case demands p = |query|), but the code
classifies the candidate as PREFIX_MATCH (it only demands 0 < p < k). -/
theorem C6_classification_counterexample :
    (evalCompositeMatch ["a", "c"] c6Conds).prefixLength = 1 ∧
    (evalCompositeMatch ["a", "c"] c6Conds).strategy = .prefixMatch ∧
    claimedCompositeStrategy 1 2 2 = some .indexSeekFilter ∧
    Strategy.prefixMatch ≠ Strategy.indexSeekFilter := by
  refine ⟨by decide, ?_, by decide, by decide⟩
  norm_num +decide [evalCompositeMatch, prefixLen, c6Conds]

/-- C6, amended: the candidate for a declared index is derived from p, the
length of the longest common prefix of the query fields (in the query's given
order) and the index fields (from position 0, order-sensitively):
EXACT_MATCH when p = |query| = k, else PREFIX_MATCH when 0 < p < k (regardless
of whether p covers the whole query), else INDEX_SEEK_FILTER when 0 < p (that
is, p = k < |query|); an index with p = 0 is not discarded — it stays in the
candidate list as a NONE candidate with estimated selectivity 0.1^0 = 1. -/
theorem C6_composite_candidate (indexFields : List String)
    (conds : List (String × JsVal)) :
    (evalCompositeMatch indexFields conds).prefixLength
        = prefixLen (conds.map (fun c => c.1)) indexFields ∧
    (conds.map (fun c => c.1)).take ((evalCompositeMatch indexFields conds).prefixLength)
        = indexFields.take ((evalCompositeMatch indexFields conds).prefixLength) ∧
    (∀ n, n ≤ conds.length → n ≤ indexFields.length →
        (conds.map (fun c => c.1)).take n = indexFields.take n →
        n ≤ (evalCompositeMatch indexFields conds).prefixLength) ∧
    (evalCompositeMatch indexFields conds).strategy =
      (if (evalCompositeMatch indexFields conds).prefixLength = conds.length ∧
          (evalCompositeMatch indexFields conds).prefixLength = indexFields.length then
        .exactMatch
      else if 0 < (evalCompositeMatch indexFields conds).prefixLength ∧
          (evalCompositeMatch indexFields conds).prefixLength < indexFields.length then
        .prefixMatch
      else if 0 < (evalCompositeMatch indexFields conds).prefixLength then
        .indexSeekFilter
      else .noneS) ∧
    (evalCompositeMatch indexFields conds).estimatedSelectivity
        = some ((1 / 10 : ℚ) ^ (evalCompositeMatch indexFields conds).prefixLength) := by
  refine ⟨rfl, ?_, ?_, ?_, rfl⟩
  · exact prefixLen_take _ _
  · intro n hq hi ht
    exact prefixLen_maximal _ _ n (by simpa using hq) hi ht
  · simp only [evalCompositeMatch, List.length_map]

/-- C6, amended, witnessed at the counterexample input: the prefix of the
query `(a, b)` matched against the index `(a, c)` has length 1 and the derived
strategy is PREFIX_MATCH. -/
theorem C6_composite_candidate_witness :
    (evalCompositeMatch ["a", "c"] c6Conds).strategy =
      (if (evalCompositeMatch ["a", "c"] c6Conds).prefixLength = c6Conds.length ∧
          (evalCompositeMatch ["a", "c"] c6Conds).prefixLength = (["a", "c"] : List String).length then
        Strategy.exactMatch
      else if 0 < (evalCompositeMatch ["a", "c"] c6Conds).prefixLength ∧
          (evalCompositeMatch ["a", "c"] c6Conds).prefixLength < (["a", "c"] : List String).length then
        Strategy.prefixMatch
      else if 0 < (evalCompositeMatch ["a", "c"] c6Conds).prefixLength then
        Strategy.indexSeekFilter
      else Strategy.noneS) :=
  (C6_composite_candidate ["a", "c"] c6Conds).2.2.2.1

/-- C7: for a disjunction of equality leaves (a nonempty list of conditions),
the planner chooses INDEX_UNION exactly when every queried field carries a
single-field index, and otherwise FULL_SCAN; no other strategy can come out. -/
theorem C7_or_planner (indices : List (String × List String))
    (conds : List (String × JsVal)) (h : conds ≠ []) :
    (planOrQuery indices conds = .indexUnion ↔
      ∀ c ∈ conds,
        hasSingleFieldIndex (SchemaParser.getSingleFieldIndexNames indices) c.1 = true) ∧
    (planOrQuery indices conds = .indexUnion ∨ planOrQuery indices conds = .fullScan) := by
  simp only [planOrQuery]
  constructor
  · split
    case isTrue hcond =>
      refine iff_of_true rfl ?_
      intro c hc
      rcases hcond with ⟨-, hzero⟩
      by_contra hnc
      have hmem : c.1 ∈ (conds.map (fun c => c.1)).filter
          (fun f => !hasSingleFieldIndex (SchemaParser.getSingleFieldIndexNames indices) f) := by
        rw [List.mem_filter]
        refine ⟨List.mem_map_of_mem _ hc, ?_⟩
        simp [hnc]
      rw [List.length_eq_zero] at hzero
      rw [hzero] at hmem
      cases hmem
    case isFalse hcond =>
      refine iff_of_false (by decide) ?_
      intro hall
      apply hcond
      constructor
      · have hfil : (conds.map (fun c => c.1)).filter
            (fun f => hasSingleFieldIndex (SchemaParser.getSingleFieldIndexNames indices) f)
            = conds.map (fun c => c.1) := by
          rw [List.filter_eq_self]
          intro a ha
          rcases List.mem_map.mp ha with ⟨c, hc, rfl⟩
          exact hall c hc
        rw [hfil]
        simpa [List.length_pos] using h
      · rw [List.length_eq_zero, List.filter_eq_nil_iff]
        intro a ha
        rcases List.mem_map.mp ha with ⟨c, hc, rfl⟩
        simp [hall c hc]
  · split <;> simp

/-- C7, witnessed: with the single-field index `role: [role]` declared, the
disjunction over the single leaf `role = "m"` is planned as INDEX_UNION. -/
theorem C7_or_planner_witness :
    planOrQuery [("role", ["role"])] [("role", .vStr "m")] = .indexUnion := by
  have h := C7_or_planner [("role", ["role"])] [("role", .vStr "m")]
    (List.cons_ne_nil _ _)
  exact h.1.mpr (by decide)

/-- C8, amended: getExact enforces no arity precondition — for every tuple of
values, of any length, it returns the posting list stored under its joined key
(empty when the key is absent) instead of rejecting; getPrefix enforces no
arity bound either (the empty prefix included) — the only calls it rejects are
those on a non-composite (single-field) manager. -/
theorem C8_no_arity_enforcement (m : ShardedIndexManager) (st : Shards)
    (vals pv : List JsVal) :
    (∃ ids, m.getExact st vals = .ok ids ∧
        ids = (shardLookup (st (m.getShardKey vals)) (m.generateCompositeKey vals)).getD []) ∧
    (m.isComposite = false →
        m.getPrefixIds st pv = .error "Prefix queries only available for composite indices") ∧
    (m.isComposite = true → ∃ ids, m.getPrefixIds st pv = .ok ids) := by
  refine ⟨⟨_, rfl, rfl⟩, ?_, ?_⟩
  · intro hcomp
    simp [ShardedIndexManager.getPrefixIds, hcomp]
  · intro hcomp
    simp only [ShardedIndexManager.getPrefixIds, hcomp, Bool.not_true,
      Bool.false_eq_true, if_false]
    exact ⟨_, rfl⟩

/-- C8, amended, witnessed on the concrete index of the counterexample: the
wrong-arity getExact call returns a posting list, and the empty-prefix
getPrefix call returns a posting list. -/
theorem C8_no_arity_enforcement_witness :
    (∃ ids, ShardedIndexManager.getExact c8Mgr c8St [.vStr "x|y"] = .ok ids ∧
        ids = (shardLookup (c8St (c8Mgr.getShardKey [.vStr "x|y"]))
          (c8Mgr.generateCompositeKey [.vStr "x|y"])).getD []) ∧
    (∃ ids, ShardedIndexManager.getPrefixIds c8Mgr c8St [] = .ok ids) :=
  ⟨(C8_no_arity_enforcement c8Mgr c8St [.vStr "x|y"] []).1,
   (C8_no_arity_enforcement c8Mgr c8St [.vStr "x|y"] []).2.2 rfl⟩

/-- C9, amended: for a dotted field path, matchesCondition is gated on the
literal property whose name is the whole dotted string: a missing or null
literal property gives false even when the dot-split nested value exists and
matches; a literal array value is matched element-wise against the expected
value; and only a literal non-null non-array value routes to comparing the
dot-split nested value (with JS `&&` short-circuiting on falsy intermediates)
against the expected value under normalization. -/
theorem C9_dotted_literal_gate (doc : Doc) (field : String) (expected : JsVal)
    (hdot : containsChar field '.' = true) :
    MultiFieldQueryEngine.matchesCondition doc field expected = true ↔
      ∃ v, jsLookup doc field = some v ∧ v ≠ .vNull ∧
        ((∃ items, v = .vArr items ∧
            items.any (fun item =>
              ValueNormalizer.normalize item == ValueNormalizer.normalize expected) = true) ∨
         ((∀ items, v ≠ .vArr items) ∧
            normalizeOpt (MultiFieldQueryEngine.getNestedValue doc field)
              = ValueNormalizer.normalize expected)) := by
  unfold MultiFieldQueryEngine.matchesCondition
  cases hl : jsLookup doc field with
  | none => simp
  | some v => cases v <;> simp [hdot, beq_iff_eq]

/-- C9, amended, witnessed: a document carrying both the literal property
`"a.b"` (non-null, non-array) and the nested path `a.b` matches the dotted
equality when the nested value normalizes equal to the expected value. -/
theorem C9_dotted_literal_gate_witness :
    MultiFieldQueryEngine.matchesCondition c9DocLit "a.b" (.vStr "Y") = true := by
  rw [C9_dotted_literal_gate c9DocLit "a.b" (.vStr "Y") rfl]
  refine ⟨.vStr "Y", rfl, ?_, .inr ⟨?_, rfl⟩⟩
  · intro h
    cases h
  · intro items h
    cases h

/-! Postings reached through shardAdd. -/

theorem shardLookup_append_self (sh : ShardMap) (key : String) (ids : List String)
    (h : shardLookup sh key = none) :
    shardLookup (sh ++ [(key, ids)]) key = some ids := by
  induction sh with
  | nil => simp [shardLookup, List.find?]
  | cons e es ih =>
      by_cases he : (e.1 == key) = true
      · exfalso
        simp [shardLookup, List.find?_cons, he] at h
      · simp only [shardLookup, List.cons_append, List.find?_cons, he] at h ⊢
        exact ih h

theorem shardLookup_map_update (sh : ShardMap) (key docId : String) (ids : List String)
    (h : shardLookup sh key = some ids) :
    shardLookup (sh.map (fun p => if p.1 == key then (p.1, p.2 ++ [docId]) else p)) key
      = some (ids ++ [docId]) := by
  induction sh with
  | nil => simp [shardLookup] at h
  | cons e es ih =>
      rw [List.map_cons]
      by_cases he : (e.1 == key) = true
      · rw [if_pos he]
        have h2 : e.2 = ids := by
          simpa [shardLookup, List.find?_cons, he] using h
        simp [shardLookup, List.find?_cons, he, h2]
      · rw [if_neg he]
        have h' : shardLookup es key = some ids := by
          simpa [shardLookup, List.find?_cons, he] using h
        have goal' := ih h'
        simpa [shardLookup, List.find?_cons, he] using goal'

theorem mem_shardAdd_self (sh : ShardMap) (key docId : String) :
    docId ∈ (shardLookup (shardAdd sh key docId) key).getD [] := by
  unfold shardAdd
  cases hl : shardLookup sh key with
  | none =>
      rw [shardLookup_append_self sh key [docId] hl]
      simp
  | some ids =>
      by_cases hc : ids.contains docId
      · simp only [hc, if_pos]
        rw [hl]
        simpa using List.mem_of_elem_eq_true hc
      · simp only [hc, if_neg, Bool.false_eq_true, not_false_eq_true]
        rw [shardLookup_map_update sh key docId ids hl]
        simp

/-- C10: every modelled equality comparison is decided on the canonical strings
of the normalizer.  (1) A defined, non-null, non-array document value under a
plain field name matches the query value exactly when the two normalizations
agree.  (2) Index keys are built from the normalizations: adding a posting
under one value tuple makes getExact find it under any tuple with the same
normalizations.  (3) For string values matching is exactly agreement of the
lowercased-and-trimmed forms — case- and surrounding-whitespace-insensitive.
(4) The boolean document value true matches the string query value "true". -/
theorem C10_normalized_matching :
    (∀ (doc : Doc) (field : String) (v dv : JsVal),
        jsLookup doc field = some dv → dv ≠ .vNull → (∀ items, dv ≠ .vArr items) →
        containsChar field '.' = false →
        MultiFieldQueryEngine.matchesCondition doc field v
          = (ValueNormalizer.normalize dv == ValueNormalizer.normalize v)) ∧
    (∀ (m : ShardedIndexManager) (st : Shards) (vals vals' : List JsVal)
        (docId : String) (ids : List String),
        m.isComposite = true →
        vals.map ValueNormalizer.normalize = vals'.map ValueNormalizer.normalize →
        m.getExact (m.addComposite st vals docId) vals' = .ok ids →
        docId ∈ ids) ∧
    (∀ (doc : Doc) (field : String) (s t : String),
        jsLookup doc field = some (.vStr s) → containsChar field '.' = false →
        (MultiFieldQueryEngine.matchesCondition doc field (.vStr t) = true ↔
          jsTrim (jsToLowerCase s) = jsTrim (jsToLowerCase t))) ∧
    (∀ (doc : Doc) (field : String),
        jsLookup doc field = some (.vBool true) → containsChar field '.' = false →
        MultiFieldQueryEngine.matchesCondition doc field (.vStr "true") = true) := by
  refine ⟨?_, ?_, ?_, ?_⟩
  · intro doc field v dv hl hnull harr hdot
    cases dv with
    | vNull => exact absurd rfl hnull
    | vArr items => exact absurd rfl (harr items)
    | vStr s => simp [MultiFieldQueryEngine.matchesCondition, hl, hdot]
    | vNum n => simp [MultiFieldQueryEngine.matchesCondition, hl, hdot]
    | vBool b => simp [MultiFieldQueryEngine.matchesCondition, hl, hdot]
    | vDate iso => simp [MultiFieldQueryEngine.matchesCondition, hl, hdot]
    | vObj fs => simp [MultiFieldQueryEngine.matchesCondition, hl, hdot]
  · intro m st vals vals' docId ids hcomp hmap heq
    have hmaps : ∀ l : List JsVal,
        l.map (fun v => (ValueNormalizer.normalize v).getD "")
          = (l.map ValueNormalizer.normalize).map (fun o => o.getD "") := by
      intro l
      rw [List.map_map]
      rfl
    have hkey : m.generateCompositeKey vals' = m.generateCompositeKey vals := by
      simp only [ShardedIndexManager.generateCompositeKey, joinKeyVals, hcomp,
        eq_self_iff_true, if_true]
      rw [hmaps, hmaps, hmap]
    have hsk : m.getShardKey vals' = m.getShardKey vals := by
      unfold ShardedIndexManager.getShardKey
      rw [hkey]
    unfold ShardedIndexManager.getExact at heq
    injection heq with h2
    rw [← h2, hsk, hkey]
    simp only [ShardedIndexManager.addComposite, eq_self_iff_true, if_true]
    exact mem_shardAdd_self _ _ _
  · intro doc field s t hl hdot
    simp [MultiFieldQueryEngine.matchesCondition, hl, hdot, ValueNormalizer.normalize]
  · intro doc field hl hdot
    simp only [MultiFieldQueryEngine.matchesCondition, hl, hdot, Bool.false_eq_true,
      if_false]
    decide

/-- C10, witnessed: the boolean value true matches the string "true", and a
string value matches a query value differing only in case and surrounding
whitespace. -/
theorem C10_normalized_matching_witness :
    MultiFieldQueryEngine.matchesCondition [("active", .vBool true)] "active"
      (.vStr "true") = true ∧
    MultiFieldQueryEngine.matchesCondition [("role", .vStr "Designer ")] "role"
      (.vStr "  DESIGNER") = true := by
  constructor
  · exact C10_normalized_matching.2.2.2 [("active", .vBool true)] "active" rfl rfl
  · exact (C10_normalized_matching.2.2.1 [("role", .vStr "Designer ")] "role"
      "Designer " "  DESIGNER" rfl rfl).mpr (by decide)

end DBFS
